import Mathlib

/-!
# MessageBus: a string-keyed call registry (message_bus.hpp)

A shallow embedding of `message_bus::MessageBus` and its nested `Invoker`.

Modelling conventions.

* C++ types that occur as argument or return types are values of `Ty`; run-time
  values are values of `Val`, each carrying its type.  A `float` or `double` is a
  rational number, negative zero or NaN (rounding and infinities are not modelled).
* Comparisons made by the code go through the type's own operator (`opNe`): IEEE
  comparison for `float` and `double`, and for a class the comparison of the fields
  its `operator==` looks at.  Copy construction and assignment copy the whole value.
* The caller's variables and the receiver objects live in a `Store` indexed by
  location; a call-site argument expression (`Args&&`) is an `Arg`.
* `assert` is taken to be active (no `NDEBUG`): a failed assertion is `Outcome.fatal`.
  Reinterpreting a `void*` at a type other than the pointee type is
  `Outcome.undefined`.
* A callable is given by its signature and by a function from the values of its
  parameters to its result and the final values of its parameters.  Callables do not
  call back into the registry and touch no storage other than their parameters and
  (member functions) their receiver.
-/

namespace message_bus

/-! ## Types and values -/

/-- C++ types appearing in signatures.  A class type records its comparison
operators (`none`: no `operator==`; `some idx`: `operator==` and `operator!=` yield
`bool` and compare the fields whose indices are in `idx`) and whether it is
copy-assignable. -/
inductive Ty where
  | void
  | int
  | float
  | double
  | bool
  | cstr
  | cls (name : String) (eqOn : Option (List Nat)) (hasAssign : Bool)
deriving DecidableEq, Repr

/-- A floating-point value: a number (`num 0` is positive zero), negative zero or
NaN. -/
inductive Flt where
  | num (q : ℚ)
  | negZero
  | nan
deriving DecidableEq, Repr

/-- IEEE `a != b`: NaN differs from everything, the two zeros do not differ. -/
def Flt.ne : Flt → Flt → Bool
  | .nan, _ => true
  | _, .nan => true
  | .num p, .num q => p != q
  | .num p, .negZero => p != 0
  | .negZero, .num q => q != 0
  | .negZero, .negZero => false

/-- Multiplication by two (`x *= 2.0f`). -/
def Flt.twice : Flt → Flt
  | .num q => .num (q * 2)
  | .negZero => .negZero
  | .nan => .nan

/-- Unary minus. -/
def Flt.neg : Flt → Flt
  | .num q => if q = 0 then .negZero else .num (-q)
  | .negZero => .num 0
  | .nan => .nan

/-- Run-time values.  `cstr` is a `const char*` (identified with the text it points
to); `obj` is an object of the class type `cls name eqOn hasAssign`. -/
inductive Val where
  | void
  | int (i : Int)
  | float (x : Flt)
  | double (x : Flt)
  | bool (b : Bool)
  | cstr (s : String)
  | obj (name : String) (eqOn : Option (List Nat)) (hasAssign : Bool) (fields : List Int)
deriving DecidableEq, Repr

/-- The type of a value. -/
def Val.type : Val → Ty
  | .void => .void
  | .int _ => .int
  | .float _ => .float
  | .double _ => .double
  | .bool _ => .bool
  | .cstr _ => .cstr
  | .obj n e a _ => .cls n e a

/-- Result of running code that may hit a failed `assert` or undefined behaviour. -/
inductive Outcome (α : Type) where
  | ok (a : α)
  | fatal
  | undefined

/-- Sequencing of outcomes. -/
def Outcome.bind {α β : Type} : Outcome α → (α → Outcome β) → Outcome β
  | .ok a, k => k a
  | .fatal, _ => .fatal
  | .undefined, _ => .undefined

/-- The value of a successful outcome. -/
def Outcome.value {α : Type} : Outcome α → Option α
  | .ok a => some a
  | _ => none

/-! ## Storage and call-site arguments -/

/-- Caller-owned storage: the value held at each location. -/
abbrev Store := Nat → Val

/-- Assignment to the object at `loc`. -/
def Store.write (σ : Store) (loc : Nat) (v : Val) : Store :=
  fun l => if l = loc then v else σ l

/-- A call-site argument expression, i.e. what one `Args&&` binds to. -/
inductive Arg where
  /-- a non-const lvalue naming the object at `loc` (`Args = T&`) -/
  | lvalue (loc : Nat)
  /-- a const-qualified lvalue naming the object at `loc` (`Args = const T&`) -/
  | clvalue (loc : Nat)
  /-- a prvalue, materialised as a temporary (`Args = T`) -/
  | rvalue (v : Val)
  /-- a string literal (`Args = const char (&)[N]`) -/
  | literal (s : String)
deriving DecidableEq, Repr

/-- The decayed copy of an argument stored in `TupleType`
(`std::make_tuple` semantics: references and cv-qualifiers removed, arrays decay). -/
def Arg.strip (σ : Store) : Arg → Val
  | .lvalue loc => σ loc
  | .clvalue loc => σ loc
  | .rvalue v => v
  | .literal s => .cstr s

/-! ## Callables (the `F` of `Register`) -/

/-- How a parameter is declared: `T`, `const T&` or `T&`. -/
inductive Passing where
  | byValue
  | constRef
  | mutRef
deriving DecidableEq, Repr

/-- One declared parameter: its bare type and the way it is passed. -/
structure Param where
  ty : Ty
  mode : Passing
deriving DecidableEq, Repr

/-- A free function, lambda, `std::function` or function object.
`body` maps the values of the parameters at entry to the returned value
(`Val.void` for a `void` function) and the values of the parameters at exit. -/
structure Callable where
  params : List Param
  RType : Ty
  body : List Val → Val × List Val

/-- A pointer to member function.  `body` additionally takes the receiver object
and yields the receiver object at exit; `isConst` marks a `const` member function. -/
structure MemberCallable where
  params : List Param
  RType : Ty
  isConst : Bool
  body : Val → List Val → Val × List Val × Val

/-- `FunctionTraits<F>::BareTupleType`: the parameter types with reference and
const removed. -/
def BareTupleType (params : List Param) : List Ty :=
  params.map (fun p => p.ty)

/-- Effect on the argument tuple of calling with the tuple elements as lvalues
(`f(std::get<Idx>(args_tuple)...)`): a `T&` parameter aliases its tuple element, so the
element ends with the parameter's final value; a `T` or `const T&` parameter leaves
its element as it was. -/
def bindBack : List Param → List Val → List Val → List Val
  | p :: ps, t :: ts, f :: fs =>
      (if p.mode = Passing.mutRef then f else t) :: bindBack ps ts fs
  | _, ts, _ => ts

/-! ## Invoker -/

/-- The erased entry `std::function<void(void*, void*)>`.  The first `void*` points
to the argument tuple (passed in and handed back, since it is modified in place), the
second is the return pointer: `none` for `nullptr`, `some R` for the address of an
`R ret`.  The result carries the store, the tuple and what was written through the
return pointer. -/
abbrev ErasedInvoker :=
  Store → List Val → Option Ty → Outcome (Store × List Val × Option Val)

namespace Invoker

/-- `Invoker<Func>::CallHelper`: `f(std::get<Idx>(args_tuple)...)`. -/
def CallHelper (f : Callable) (args_tuple : List Val) : Val × List Val :=
  let r := f.body args_tuple
  (r.1, bindBack f.params args_tuple r.2)

/-- `Invoker<Func>::Call<R>`, both overloads. -/
def Call (f : Callable) (args_tuple : List Val) (ret_value : Option Ty) :
    Outcome (List Val × Option Val) :=
  if f.RType = Ty.void then
    .ok ((CallHelper f args_tuple).2, none)
  else
    let r := CallHelper f args_tuple
    match ret_value with
    | none => .ok (r.2, none)
    | some R => if R = f.RType then .ok (r.2, some r.1) else .undefined

/-- `Invoker<Func>::Apply`. -/
def Apply (func : Callable) : ErasedInvoker :=
  fun σ args_tuple ret_value =>
    if func.RType ≠ Ty.void ∧ ret_value = none then
      .fatal
    else if args_tuple.map Val.type ≠ BareTupleType func.params then
      .undefined
    else
      (Call func args_tuple ret_value).bind fun r => .ok (σ, r.1, r.2)

/-- `Invoker<Func>::CallMemberHelper`: `(self->*f)(std::get<Idx>(args_tuple)...)`. -/
def CallMemberHelper (f : MemberCallable) (self : Nat) (σ : Store)
    (args_tuple : List Val) : Val × List Val × Store :=
  let r := f.body (σ self) args_tuple
  (r.1, bindBack f.params args_tuple r.2.1,
    if f.isConst then σ else σ.write self r.2.2)

/-- `Invoker<Func>::CallMember<R>`, both overloads. -/
def CallMember (f : MemberCallable) (self : Nat) (σ : Store) (args_tuple : List Val)
    (ret_value : Option Ty) : Outcome (Store × List Val × Option Val) :=
  if f.RType = Ty.void then
    let r := CallMemberHelper f self σ args_tuple
    .ok (r.2.2, r.2.1, none)
  else
    let r := CallMemberHelper f self σ args_tuple
    match ret_value with
    | none => .ok (r.2.2, r.2.1, none)
    | some R => if R = f.RType then .ok (r.2.2, r.2.1, some r.1) else .undefined

/-- `Invoker<Func>::ApplyMember<ClassType>`. -/
def ApplyMember (func : MemberCallable) (self : Nat) : ErasedInvoker :=
  fun σ args_tuple ret_value =>
    if func.RType ≠ Ty.void ∧ ret_value = none then
      .fatal
    else if args_tuple.map Val.type ≠ BareTupleType func.params then
      .undefined
    else
      CallMember func self σ args_tuple ret_value

end Invoker

/-! ## The registry -/

/-- `std::unordered_map::find` on the list of entries. -/
def mapFind {β : Type} : List (String × β) → String → Option β
  | [], _ => none
  | (k, v) :: rest, key => if k = key then some v else mapFind rest key

/-- `m[key] = v` (`operator[]` then assignment): overwrite the entry of `key` when
there is one, insert a new entry otherwise. -/
def mapAssign {β : Type} : List (String × β) → String → β → List (String × β)
  | [], key, v => [(key, v)]
  | (k, w) :: rest, key, v =>
      if k = key then (k, v) :: rest else (k, w) :: mapAssign rest key v

/-- The class `MessageBus`: its only data member is `invokers_`. -/
structure MessageBus where
  invokers_ : List (String × ErasedInvoker)

namespace MessageBus

/-- A registry with no binding (the state of the singleton at first access). -/
def empty : MessageBus := ⟨[]⟩

/-- `MessageBus::HasKey`. -/
def HasKey (bus : MessageBus) (key : String) : Bool :=
  (mapFind bus.invokers_ key).isSome

/-- `MessageBus::Register(key, f)`, the free/closure form. -/
def Register (bus : MessageBus) (key : String) (f : Callable) : Bool × MessageBus :=
  if bus.HasKey key then
    (false, bus)
  else
    (true, ⟨mapAssign bus.invokers_ key (Invoker.Apply f)⟩)

/-- `MessageBus::Register(key, f, self)`, the bound-member form. -/
def RegisterMember (bus : MessageBus) (key : String) (f : MemberCallable) (self : Nat) :
    Bool × MessageBus :=
  if bus.HasKey key then
    (false, bus)
  else
    (true, ⟨mapAssign bus.invokers_ key (Invoker.ApplyMember f self)⟩)

/-- `IsEqualityComparable<DST&, SRC&>` where `SRC` is the decayed `DST`. -/
def IsEqualityComparable : Ty → Bool
  | .void => false
  | .cls _ e _ => e.isSome
  | _ => true

/-- `std::is_assignable<DST&, SRC&>` for the call-site expression `dst` whose decayed
type is `ty`. -/
def is_assignable (dst : Arg) (ty : Ty) : Bool :=
  match dst with
  | .lvalue _ | .rvalue _ =>
      (match ty with
       | .void => false
       | .cls _ _ a => a
       | _ => true)
  | .clvalue _ => false
  | .literal _ => false

/-- The `operator!=` that `dst != src` resolves to for the type of the two values:
IEEE comparison for `float` and `double`, the class's own operator for an object
(it compares the fields listed in the class type), identity of the value otherwise. -/
def opNe : Val → Val → Bool
  | .float a, .float b => a.ne b
  | .double a, .double b => a.ne b
  | .obj _ (some idx) _ fs, .obj _ _ _ gs => idx.any fun i => fs[i]? != gs[i]?
  | a, b => a != b

/-- `MessageBus::UpdateImpl`, both overloads: the first is selected when the
`enable_if` condition holds, the second (which does nothing) otherwise.  An
assignment to a temporary has no effect on the store. -/
def UpdateImpl (ty : Ty) (src : Val) (dst : Arg) (σ : Store) : Store :=
  if IsEqualityComparable ty && is_assignable dst ty then
    match dst with
    | .lvalue loc => if opNe (σ loc) src then σ.write loc src else σ
    | _ => σ
  else
    σ

/-- `MessageBus::Update`: `UpdateImpl` at every index, in increasing order.  `tys`
are the element types of `TupleType` (fixed at the call site). -/
def Update : List Ty → List Val → List Arg → Store → Store
  | ty :: tys, src :: srcs, dst :: dsts, σ =>
      Update tys srcs dsts (UpdateImpl ty src dst σ)
  | _, _, _, σ => σ

/-- `MessageBus::CallImpl`: build the tuple of decayed copies, run the erased entry
on it, then write back. -/
def CallImpl (iter : ErasedInvoker) (ret_value : Option Ty) (args : List Arg)
    (σ : Store) : Outcome (Option Val × Store) :=
  let args_tuple := args.map (Arg.strip σ)
  (iter σ args_tuple ret_value).bind fun r =>
    .ok (r.2.2, Update (args_tuple.map Val.type) r.2.1 args r.1)

/-- `MessageBus::Call<R>`, both overloads.  In the non-void overload `R ret;` is
uninitialised until the entry writes through `&ret`. -/
def Call (bus : MessageBus) (R : Ty) (key : String) (args : List Arg) (σ : Store) :
    Outcome (Val × Store) :=
  match mapFind bus.invokers_ key with
  | none => .fatal
  | some iter =>
      if R = Ty.void then
        (CallImpl iter none args σ).bind fun r => .ok (Val.void, r.2)
      else
        (CallImpl iter (some R) args σ).bind fun r =>
          match r.1 with
          | some ret => .ok (ret, r.2)
          | none => .undefined

end MessageBus

/-! ## Bindings and sequences of operations -/

/-- What a key can be bound to: a callable (free/closure form of `Register`) or a
pointer to member function with its receiver (bound-member form). -/
inductive Bound where
  | free (f : Callable)
  | member (f : MemberCallable) (self : Nat)

namespace Bound

/-- Declared return type of the bound callable. -/
def RType : Bound → Ty
  | .free f => f.RType
  | .member f _ => f.RType

/-- Declared parameters of the bound callable. -/
def params : Bound → List Param
  | .free f => f.params
  | .member f _ => f.params

/-- Location of the receiver, for the member form. -/
def receiver : Bound → Option Nat
  | .free _ => none
  | .member _ self => some self

/-- The erased entry that registration stores for the binding. -/
def entry : Bound → ErasedInvoker
  | .free f => Invoker.Apply f
  | .member f self => Invoker.ApplyMember f self

/-- Registration through the overload of `Register` that fits the binding. -/
def register (bus : MessageBus) (key : String) : Bound → Bool × MessageBus
  | .free f => bus.Register key f
  | .member f self => bus.RegisterMember key f self

/-- Value returned by the bound callable run directly on the given parameter values. -/
def result : Bound → Store → List Val → Val
  | .free f, _, vs => (f.body vs).1
  | .member f self, σ, vs => (f.body (σ self) vs).1

/-- Values of the callable's own parameters when it returns. -/
def finals : Bound → Store → List Val → List Val
  | .free f, _, vs => (f.body vs).2
  | .member f self, σ, vs => (f.body (σ self) vs).2.1

/-- The store when the callable returns (only a non-const member function changes
it, at its receiver). -/
def storeAfter : Bound → Store → List Val → Store
  | .free _, σ, _ => σ
  | .member f self, σ, vs =>
      if f.isConst then σ else σ.write self (f.body (σ self) vs).2.2

end Bound

/-- The store after a complete `Call` on a key bound to `b`: the callable runs on the
tuple of decayed copies, then every position is written back. -/
def Bound.storeAfterCall (b : Bound) (args : List Arg) (σ : Store) : Store :=
  let args_tuple := args.map (Arg.strip σ)
  MessageBus.Update (args_tuple.map Val.type)
    (bindBack b.params args_tuple (b.finals σ args_tuple)) args (b.storeAfter σ args_tuple)

/-- The call-site types agree with the registration: `R` is the declared return type
and the decayed argument types are the bare parameter types. -/
def Agrees (b : Bound) (R : Ty) (args : List Arg) (σ : Store) : Prop :=
  R = b.RType ∧ (args.map (Arg.strip σ)).map Val.type = BareTupleType b.params

instance (b : Bound) (R : Ty) (args : List Arg) (σ : Store) : Decidable (Agrees b R args σ) := by
  unfold Agrees; infer_instance

/-- One operation on the registry. -/
inductive Op where
  | register (key : String) (b : Bound)
  | hasKey (key : String)
  | call (R : Ty) (key : String) (args : List Arg)

/-- The registry together with the caller's storage. -/
structure State where
  bus : MessageBus
  store : Store

/-- Effect of one operation; a fatal or undefined `Call` ends the run. -/
def step (s : State) : Op → Outcome State
  | .register key b => .ok ⟨(b.register s.bus key).2, s.store⟩
  | .hasKey _ => .ok s
  | .call R key args => (s.bus.Call R key args s.store).bind fun r => .ok ⟨s.bus, r.2⟩

/-- Effect of a sequence of operations. -/
def exec : State → List Op → Outcome State
  | s, [] => .ok s
  | s, op :: ops => (step s op).bind fun s1 => exec s1 ops

/-- The binding passed to the first `Register(key, ...)` of the sequence. -/
def firstBinding : List Op → String → Option Bound
  | [], _ => none
  | .register k b :: ops, key => if k = key then some b else firstBinding ops key
  | .hasKey _ :: ops, key => firstBinding ops key
  | .call _ _ _ :: ops, key => firstBinding ops key

/-! ## The functions of test.cpp -/

/-- `int foo(int i, const char* const c, float& f, const double& d)`:
doubles `f` and returns `i + 1`. -/
def foo : Callable where
  params := [⟨.int, .byValue⟩, ⟨.cstr, .byValue⟩, ⟨.float, .mutRef⟩, ⟨.double, .constRef⟩]
  RType := .int
  body := fun vs =>
    match vs with
    | [.int i, c, .float f, d] => (.int (i + 1), [.int i, c, .float f.twice, d])
    | _ => (.int 0, vs)

/-- An object of `class Base` with fields `id_` and `step_` (no `operator==`). -/
def Base (id_ step_ : Int) : Val := .obj "Base" none true [id_, step_]

/-- `void Base::base_foo(int& i)`: `i += step_`. -/
def base_foo : MemberCallable where
  params := [⟨.int, .mutRef⟩]
  RType := .void
  isConst := false
  body := fun self vs =>
    match self, vs with
    | .obj _ _ _ [_, step_], [.int i] => (.void, [.int (i + step_)], self)
    | _, _ => (.void, vs, self)

/-- `bool Base::check_id(int id) const`: `id == this->id_`. -/
def check_id : MemberCallable where
  params := [⟨.int, .byValue⟩]
  RType := .bool
  isConst := true
  body := fun self vs =>
    match self, vs with
    | .obj _ _ _ [id_, _], [.int id] => (.bool (id == id_), vs, self)
    | _, _ => (.bool false, vs, self)

/-- `void foo2(const Base& base)`: prints the fields. -/
def foo2 : Callable where
  params := [⟨.cls "Base" none true, .constRef⟩]
  RType := .void
  body := fun vs => (.void, vs)

/-- The caller's variables of Test 1 and Test 2: `f` at 0, `i` at 1, `d` at 2, `str`
at 3 (Test 1); `base0` at 10, `base1` at 11, `i` at 12 (Test 2). -/
def testStore : Store := fun l =>
  match l with
  | 0 => .float (.num (6 / 5))
  | 1 => .int 2
  | 2 => .double (.num (1359 / 500))
  | 3 => .cstr "const char"
  | 10 => Base 10 5
  | 11 => Base 20 100
  | 12 => .int 0
  | _ => .void

/-- The registry after the registrations of Test 1 and Test 2, in program order. -/
def testBus : MessageBus :=
  ((((((MessageBus.empty.Register "foo" foo).2.Register "foo2" foo2).2.RegisterMember
    "base_foo/0" base_foo 10).2.RegisterMember "base_foo/1" base_foo 11).2.RegisterMember
    "check_id/0" check_id 10).2.RegisterMember "check_id/1" check_id 11).2

/-- The registry of Test 2 just before `check_id/0` and `check_id/1` are registered. -/
def testBusBefore : MessageBus :=
  ((((MessageBus.empty.Register "foo" foo).2.Register "foo2" foo2).2.RegisterMember
    "base_foo/0" base_foo 10).2.RegisterMember "base_foo/1" base_foo 11).2

/-- The arguments of `bus.Call<int>("foo", 1, "char", f, 3.14)`. -/
def firstCallArgs : List Arg :=
  [.rvalue (.int 1), .literal "char", .lvalue 0, .rvalue (.double (.num (157 / 50)))]

/-- The arguments of `bus.Call<int>("foo", i, str, f, d)`. -/
def secondCallArgs : List Arg :=
  [.lvalue 1, .lvalue 3, .lvalue 0, .lvalue 2]

/-! ## Further callables used as inputs -/

/-- `void bumpId(Base& b) { b.id_ += 1; }` -/
def bumpId : Callable where
  params := [⟨.cls "Base" none true, .mutRef⟩]
  RType := .void
  body := fun vs =>
    match vs with
    | [.obj n e a [id_, step_]] => (.void, [.obj n e a [id_ + 1, step_]])
    | _ => (.void, vs)

/-- `void assignSucc(int& a, int b) { a = b + 1; }` -/
def assignSucc : Callable where
  params := [⟨.int, .mutRef⟩, ⟨.int, .byValue⟩]
  RType := .void
  body := fun vs =>
    match vs with
    | [.int _, .int b] => (.void, [.int (b + 1), .int b])
    | _ => (.void, vs)

/-- `void succInto(int a, int& b) { b = a + 1; }` -/
def succInto : Callable where
  params := [⟨.int, .byValue⟩, ⟨.int, .mutRef⟩]
  RType := .void
  body := fun vs =>
    match vs with
    | [.int a, .int _] => (.void, [.int a, .int (a + 1)])
    | _ => (.void, vs)

/-- `void Base::absorb(Base other) { id_ += other.id_; }` -/
def absorb : MemberCallable where
  params := [⟨.cls "Base" none true, .byValue⟩]
  RType := .void
  isConst := false
  body := fun self vs =>
    match self, vs with
    | .obj n e a [id_, step_], [.obj _ _ _ [oid, _]] =>
        (.void, vs, .obj n e a [id_ + oid, step_])
    | _, _ => (.void, vs, self)

/-- An object of a class `Item` with fields `id` and `count` whose `operator==` and
`operator!=` compare `id` only. -/
def Item (id count : Int) : Val := .obj "Item" (some [0]) true [id, count]

/-- `void restock(Item& it) { it.count += 1; }` -/
def restock : Callable where
  params := [⟨.cls "Item" (some [0]) true, .mutRef⟩]
  RType := .void
  body := fun vs =>
    match vs with
    | [.obj n e a [id, count]] => (.void, [.obj n e a [id, count + 1]])
    | _ => (.void, vs)

/-- `void flipSign(float& f) { f = -f; }` -/
def flipSign : Callable where
  params := [⟨.float, .mutRef⟩]
  RType := .void
  body := fun vs =>
    match vs with
    | [.float f] => (.void, [.float f.neg])
    | _ => (.void, vs)

/-- A store holding an `Item` with `id = 10`, `count = 5` at location 0. -/
def oneItem : Store := fun l => if l = 0 then Item 10 5 else .void

/-- A store holding `float z = 0.0f` at location 0. -/
def oneZero : Store := fun l => if l = 0 then .float (.num 0) else .void

/-- A store holding `int x = 1` at location 0. -/
def oneVar : Store := fun l => if l = 0 then .int 1 else .void

/-- A store holding a `Base` object with `id_ = 10`, `step_ = 5` at location 0. -/
def oneBase : Store := fun l => if l = 0 then Base 10 5 else .void

/-! ## Properties of the map operations -/

open MessageBus

theorem mapFind_mapAssign_self {β : Type} (m : List (String × β)) (key : String) (v : β) :
    mapFind (mapAssign m key v) key = some v := by
  induction m with
  | nil => simp [mapAssign, mapFind]
  | cons e rest ih =>
    obtain ⟨k, w⟩ := e
    by_cases h : k = key
    · simp [mapAssign, mapFind, h]
    · simp [mapAssign, mapFind, h, ih]

theorem mapFind_mapAssign_ne {β : Type} (m : List (String × β)) (key key' : String) (v : β)
    (hne : key' ≠ key) : mapFind (mapAssign m key v) key' = mapFind m key' := by
  induction m with
  | nil => simp [mapAssign, mapFind, Ne.symm hne]
  | cons e rest ih =>
    obtain ⟨k, w⟩ := e
    by_cases h : k = key
    · subst h
      simp [mapAssign, mapFind, Ne.symm hne]
    · by_cases h' : k = key'
      · subst h'
        simp [mapAssign, mapFind, hne]
      · simp [mapAssign, mapFind, h, h', ih]

/-! ## The erased entry and `Call` in closed form -/

/-- The erased entry of a binding, case by case. -/
theorem entry_eq (b : Bound) (σ : Store) (t : List Val) (ret : Option Ty) :
    b.entry σ t ret =
      if b.RType ≠ Ty.void ∧ ret = none then Outcome.fatal
      else if t.map Val.type ≠ BareTupleType b.params then Outcome.undefined
      else if b.RType = Ty.void then
        Outcome.ok (b.storeAfter σ t, bindBack b.params t (b.finals σ t), none)
      else match ret with
        | none => Outcome.ok (b.storeAfter σ t, bindBack b.params t (b.finals σ t), none)
        | some R =>
          if R = b.RType then
            Outcome.ok (b.storeAfter σ t, bindBack b.params t (b.finals σ t),
              some (b.result σ t))
          else Outcome.undefined := by
  cases b with
  | free f =>
    simp only [Bound.entry, Bound.RType, Bound.params, Bound.storeAfter, Bound.finals,
      Bound.result, Invoker.Apply, Invoker.Call, Invoker.CallHelper]
    split_ifs
    · rfl
    · rfl
    · rfl
    · cases ret with
      | none => rfl
      | some R => by_cases hR : R = f.RType <;> simp [hR, Outcome.bind]
  | member f self =>
    simp only [Bound.entry, Bound.RType, Bound.params, Bound.storeAfter, Bound.finals,
      Bound.result, Invoker.ApplyMember, Invoker.CallMember, Invoker.CallMemberHelper]

/-- The whole of `Call` on a key bound to `b`. -/
theorem call_bound (bus : MessageBus) (k : String) (b : Bound)
    (h : mapFind bus.invokers_ k = some b.entry) (R : Ty) (args : List Arg) (σ : Store) :
    bus.Call R k args σ =
      if b.RType ≠ Ty.void ∧ R = Ty.void then Outcome.fatal
      else if (args.map (Arg.strip σ)).map Val.type ≠ BareTupleType b.params then
        Outcome.undefined
      else if R = b.RType then
        Outcome.ok (if R = Ty.void then Val.void else b.result σ (args.map (Arg.strip σ)),
          b.storeAfterCall args σ)
      else Outcome.undefined := by
  unfold MessageBus.Call
  rw [h]
  simp only [CallImpl, entry_eq, Bound.storeAfterCall]
  generalize List.map (Arg.strip σ) args = t
  by_cases hR : R = Ty.void
  · subst hR
    by_cases hb : b.RType = Ty.void
    · by_cases ht : t.map Val.type = BareTupleType b.params
      · simp [hb, ht, Outcome.bind]
      · simp [hb, ht, Outcome.bind]
    · simp [hb, Outcome.bind]
  · by_cases hb : b.RType = Ty.void
    · have hne : R ≠ b.RType := by rw [hb]; exact hR
      by_cases ht : t.map Val.type = BareTupleType b.params
      · simp [hb, hR, hne, ht, Outcome.bind]
      · simp [hb, hR, hne, ht, Outcome.bind]
    · by_cases ht : t.map Val.type = BareTupleType b.params
      · by_cases hRb : R = b.RType
        · simp [hb, hR, ht, hRb, Outcome.bind]
        · simp [hb, hR, ht, hRb, Outcome.bind]
      · simp [hb, hR, ht, Outcome.bind]

/-! ## Properties of the write-back pass -/

theorem write_same (σ : Store) (loc : Nat) (v : Val) : (σ.write loc v) loc = v := by
  simp [Store.write]

theorem write_other (σ : Store) (loc l : Nat) (v : Val) (h : l ≠ loc) :
    (σ.write loc v) l = σ l := by
  simp [Store.write, h]

theorem UpdateImpl_other (ty : Ty) (src : Val) (dst : Arg) (σ : Store) (loc : Nat)
    (h : dst ≠ Arg.lvalue loc) : UpdateImpl ty src dst σ loc = σ loc := by
  unfold UpdateImpl
  split_ifs with hc
  · cases dst with
    | lvalue l =>
      have hl : loc ≠ l := fun e => h (by rw [e])
      by_cases hs : opNe (σ l) src = true
      · simp [hs, write_other _ _ _ _ hl]
      · simp [hs]
    | clvalue l => rfl
    | rvalue v => rfl
    | literal s => rfl
  · rfl

/-- A position that is written back assigns exactly when the type's `operator!=`
reports a difference. -/
theorem UpdateImpl_hit (ty : Ty) (src : Val) (σ : Store) (loc : Nat)
    (hc : (IsEqualityComparable ty && is_assignable (Arg.lvalue loc) ty) = true) :
    UpdateImpl ty src (Arg.lvalue loc) σ loc = if opNe (σ loc) src then src else σ loc := by
  unfold UpdateImpl
  rw [if_pos hc]
  by_cases hs : opNe (σ loc) src = true
  · simp [hs, write_same]
  · simp [hs]

theorem UpdateImpl_skip (ty : Ty) (src : Val) (dst : Arg) (σ : Store)
    (hc : (IsEqualityComparable ty && is_assignable dst ty) = false) :
    UpdateImpl ty src dst σ = σ := by
  unfold UpdateImpl
  simp [hc]

/-- A location keeps the value `v` through the write-back pass when every position
that names it as a non-const lvalue either is skipped or carries `v`. -/
theorem Update_stable (loc : Nat) (v : Val) :
    ∀ (tys : List Ty) (srcs : List Val) (dsts : List Arg) (σ : Store), σ loc = v →
      (∀ (j : Nat) (ty : Ty) (src : Val), tys[j]? = some ty → srcs[j]? = some src →
        dsts[j]? = some (Arg.lvalue loc) →
        (IsEqualityComparable ty && is_assignable (Arg.lvalue loc) ty) = false ∨ src = v) →
      Update tys srcs dsts σ loc = v := by
  intro tys
  induction tys with
  | nil => intro srcs dsts σ h _; simpa [Update] using h
  | cons ty tys ih =>
    intro srcs dsts σ h hall
    cases srcs with
    | nil => simpa [Update] using h
    | cons src srcs =>
      cases dsts with
      | nil => simpa [Update] using h
      | cons dst dsts =>
        simp only [Update]
        apply ih
        · by_cases hd : dst = Arg.lvalue loc
          · subst hd
            rcases hall 0 ty src (by simp) (by simp) (by simp) with hc | hv
            · rw [UpdateImpl_skip _ _ _ _ hc]; exact h
            · by_cases hc : (IsEqualityComparable ty && is_assignable (Arg.lvalue loc) ty) = true
              · rw [UpdateImpl_hit _ _ _ _ hc]
                split_ifs
                · exact hv
                · exact h
              · rw [UpdateImpl_skip _ _ _ _ (by simpa using hc)]; exact h
          · rw [UpdateImpl_other _ _ _ _ _ hd]; exact h
        · intro j ty' src' h1 h2 h3
          exact hall (j + 1) ty' src' (by simpa using h1) (by simpa using h2) (by simpa using h3)

/-- A location named by the argument at position `i` only: when that position is
written back, the location ends the pass with the tuple element if the type's
`operator!=` tells it apart from the value held, and as it was otherwise. -/
theorem Update_hit (loc : Nat) (v : Val) (ty : Ty)
    (hc : (IsEqualityComparable ty && is_assignable (Arg.lvalue loc) ty) = true) :
    ∀ (i : Nat) (tys : List Ty) (srcs : List Val) (dsts : List Arg) (σ : Store),
      tys[i]? = some ty → srcs[i]? = some v → dsts[i]? = some (Arg.lvalue loc) →
      (∀ j : Nat, j ≠ i → dsts[j]? ≠ some (Arg.lvalue loc)) →
      Update tys srcs dsts σ loc = if opNe (σ loc) v then v else σ loc := by
  intro i
  induction i with
  | zero =>
    intro tys srcs dsts σ h1 h2 h3 hone
    cases tys with
    | nil => simp at h1
    | cons ty' tys =>
      cases srcs with
      | nil => simp at h2
      | cons src srcs =>
        cases dsts with
        | nil => simp at h3
        | cons dst dsts =>
          simp at h1 h2 h3
          subst h1 h2 h3
          simp only [Update]
          apply Update_stable
          · exact UpdateImpl_hit _ _ _ _ hc
          · intro j ty' src' _ _ h3
            exact absurd h3 (by simpa using hone (j + 1) (by omega))
  | succ i ih =>
    intro tys srcs dsts σ h1 h2 h3 hone
    cases tys with
    | nil => simp at h1
    | cons ty' tys =>
      cases srcs with
      | nil => simp at h2
      | cons src srcs =>
        cases dsts with
        | nil => simp at h3
        | cons dst dsts =>
          simp only [Update]
          have hd : dst ≠ Arg.lvalue loc := by
            simpa using hone 0 (by omega)
          rw [← UpdateImpl_other ty' src dst σ loc hd]
          apply ih
          · simpa using h1
          · simpa using h2
          · simpa using h3
          · intro j hj
            simpa using hone (j + 1) (by omega)

/-- A tuple element whose parameter is not a `T&` is left as it was. -/
theorem bindBack_keep (ps : List Param) (ts fs : List Val) (j : Nat)
    (h : ∀ q, ps[j]? = some q → q.mode ≠ Passing.mutRef) :
    (bindBack ps ts fs)[j]? = ts[j]? := by
  induction ps generalizing ts fs j with
  | nil => simp [bindBack]
  | cons p ps ih =>
    cases ts with
    | nil => simp [bindBack]
    | cons t ts =>
      cases fs with
      | nil => simp [bindBack]
      | cons f fs =>
        cases j with
        | zero =>
          have := h p (by simp)
          simp [bindBack, this]
        | succ j =>
          simp only [bindBack, List.getElem?_cons_succ]
          exact ih ts fs j (fun q hq => h q (by simpa using hq))

/-- A tuple element bound to a `T&` parameter ends with the parameter's final value. -/
theorem bindBack_take (ps : List Param) (ts fs : List Val) (j : Nat) (q : Param) (t v : Val)
    (hq : ps[j]? = some q) (hm : q.mode = Passing.mutRef) (ht : ts[j]? = some t)
    (hv : fs[j]? = some v) : (bindBack ps ts fs)[j]? = some v := by
  induction ps generalizing ts fs j with
  | nil => simp at hq
  | cons p ps ih =>
    cases ts with
    | nil => simp at ht
    | cons t' ts =>
      cases fs with
      | nil => simp at hv
      | cons f fs =>
        cases j with
        | zero =>
          simp at hq hv
          subst hq hv
          simp [bindBack, hm]
        | succ j =>
          simp only [bindBack, List.getElem?_cons_succ]
          exact ih ts fs j (by simpa using hq) (by simpa using ht) (by simpa using hv)

/-! ## Registration -/

/-- C1: registering under a key that is already bound returns false and leaves the
registry exactly as it was, in the free form and in the bound-member form; the entry
found under the key, hence what `Call` runs, is still the original one. -/
theorem register_bound_key_rejected (bus : MessageBus) (k : String) (g : Callable)
    (mg : MemberCallable) (self : Nat) (h : bus.HasKey k = true) :
    bus.Register k g = (false, bus) ∧ bus.RegisterMember k mg self = (false, bus) ∧
    (∃ iter, mapFind bus.invokers_ k = some iter ∧
        mapFind (bus.Register k g).2.invokers_ k = some iter ∧
        mapFind (bus.RegisterMember k mg self).2.invokers_ k = some iter) ∧
    (∀ key, (bus.Register k g).2.HasKey key = bus.HasKey key ∧
        (bus.RegisterMember k mg self).2.HasKey key = bus.HasKey key) ∧
    (∀ R args σ, (bus.Register k g).2.Call R k args σ = bus.Call R k args σ ∧
        (bus.RegisterMember k mg self).2.Call R k args σ = bus.Call R k args σ) := by
  have h1 : bus.Register k g = (false, bus) := by simp [Register, h]
  have h2 : bus.RegisterMember k mg self = (false, bus) := by simp [RegisterMember, h]
  refine ⟨h1, h2, ?_, ?_, ?_⟩
  · rw [h1, h2]
    unfold HasKey at h
    cases hf : mapFind bus.invokers_ k with
    | none => simp [hf] at h
    | some iter => exact ⟨iter, rfl, rfl, rfl⟩
  · intro key; rw [h1, h2]; exact ⟨rfl, rfl⟩
  · intro R args σ; rw [h1, h2]; exact ⟨rfl, rfl⟩

/-- C2: registering under a key that is not bound returns true and the key is bound
afterwards, to the erased entry of the callable registered; in the free form and in the
bound-member form. -/
theorem register_fresh_key_binds (bus : MessageBus) (k : String) (f : Callable)
    (m : MemberCallable) (self : Nat) (h : bus.HasKey k = false) :
    ((bus.Register k f).1 = true ∧ (bus.Register k f).2.HasKey k = true ∧
      mapFind (bus.Register k f).2.invokers_ k = some (Invoker.Apply f)) ∧
    ((bus.RegisterMember k m self).1 = true ∧
      (bus.RegisterMember k m self).2.HasKey k = true ∧
      mapFind (bus.RegisterMember k m self).2.invokers_ k =
        some (Invoker.ApplyMember m self)) := by
  have hr : bus.Register k f = (true, ⟨mapAssign bus.invokers_ k (Invoker.Apply f)⟩) := by
    simp [Register, h]
  have hm : bus.RegisterMember k m self =
      (true, ⟨mapAssign bus.invokers_ k (Invoker.ApplyMember m self)⟩) := by
    simp [RegisterMember, h]
  rw [hr, hm]
  simp [HasKey, mapFind_mapAssign_self]

/-- Test 1 registers `foo` on the empty registry, Test 2 binds `base_foo/0` to `base0`. -/
theorem register_fresh_key_binds_witness :
    MessageBus.empty.HasKey "foo" = false ∧
    (MessageBus.empty.Register "foo" foo).1 = true ∧
    (MessageBus.empty.Register "foo" foo).2.HasKey "foo" = true ∧
    (MessageBus.empty.RegisterMember "foo" base_foo 10).2.HasKey "foo" = true :=
  have h := register_fresh_key_binds MessageBus.empty "foo" foo base_foo 10 rfl
  ⟨rfl, h.1.1, h.1.2.1, h.2.2.1⟩

/-- The test registry already binds `foo`: registering `foo2` or `check_id` under that
key is rejected. -/
theorem register_bound_key_rejected_witness :
    testBus.HasKey "foo" = true ∧
    testBus.Register "foo" foo2 = (false, testBus) ∧
    testBus.RegisterMember "foo" check_id 10 = (false, testBus) :=
  have h := register_bound_key_rejected testBus "foo" foo2 check_id 10 rfl
  ⟨rfl, h.1, h.2.1⟩

/-! ## Lookup failures and return slots -/

/-- C6: `Call<R>` on a key that is not bound is fatal, for void and non-void `R` and
whatever the arguments and the entries of the registry are; on a bound key the lookup
yields the entry of that key and the call proceeds with that entry alone. -/
theorem call_unknown_key_fatal (bus : MessageBus) (k : String) (R : Ty) (args : List Arg)
    (σ : Store) :
    (bus.HasKey k = false → bus.Call R k args σ = Outcome.fatal) ∧
    (bus.HasKey k = true → ∃ iter, mapFind bus.invokers_ k = some iter ∧
      bus.Call R k args σ = (MessageBus.mk [(k, iter)]).Call R k args σ) := by
  constructor
  · intro h
    unfold HasKey at h
    cases hf : mapFind bus.invokers_ k with
    | none => simp [MessageBus.Call, hf]
    | some iter => simp [hf] at h
  · intro h
    unfold HasKey at h
    cases hf : mapFind bus.invokers_ k with
    | none => simp [hf] at h
    | some iter =>
      refine ⟨iter, rfl, ?_⟩
      simp [MessageBus.Call, hf, mapFind]

/-- The test registry has no key `"bar"`: `Call<int>` and `Call<void>` on it are fatal;
it has the key `"foo"`, whose lookup yields the entry of `foo`. -/
theorem call_unknown_key_fatal_witness :
    testBus.HasKey "bar" = false ∧
    testBus.Call Ty.int "bar" firstCallArgs testStore = Outcome.fatal ∧
    testBus.Call Ty.void "bar" [] testStore = Outcome.fatal ∧
    testBus.HasKey "foo" = true ∧
    (∃ iter, mapFind testBus.invokers_ "foo" = some iter ∧
      testBus.Call Ty.int "foo" firstCallArgs testStore =
        (MessageBus.mk [("foo", iter)]).Call Ty.int "foo" firstCallArgs testStore) :=
  ⟨rfl, (call_unknown_key_fatal testBus "bar" Ty.int firstCallArgs testStore).1 rfl,
    (call_unknown_key_fatal testBus "bar" Ty.void [] testStore).1 rfl, rfl,
    (call_unknown_key_fatal testBus "foo" Ty.int firstCallArgs testStore).2 rfl⟩

/-- C7: for a key bound, in the free or the member form, to a callable whose declared
return type is not `void`, the erased entry run with a null return pointer fails
fatally on any tuple, and so does `Call<void>`, whatever the arguments; for a callable
declared `void` the null return pointer is accepted and `Call<void>` completes
(argument types as declared). -/
theorem missing_return_slot_fatal (bus : MessageBus) (k : String) (b : Bound)
    (args : List Arg) (σ : Store) (hreg : mapFind bus.invokers_ k = some b.entry) :
    (b.RType ≠ Ty.void →
      (∀ σ1 t, b.entry σ1 t none = Outcome.fatal) ∧
      bus.Call Ty.void k args σ = Outcome.fatal) ∧
    (b.RType = Ty.void →
      (args.map (Arg.strip σ)).map Val.type = BareTupleType b.params →
      b.entry σ (args.map (Arg.strip σ)) none =
        Outcome.ok (b.storeAfter σ (args.map (Arg.strip σ)),
          bindBack b.params (args.map (Arg.strip σ)) (b.finals σ (args.map (Arg.strip σ))),
          none) ∧
      bus.Call Ty.void k args σ = Outcome.ok (Val.void, b.storeAfterCall args σ)) := by
  constructor
  · intro hr
    refine ⟨fun σ1 t => ?_, ?_⟩
    · rw [entry_eq]
      simp [hr]
    · rw [call_bound bus k b hreg]
      simp [hr]
  · intro hr ht
    rw [entry_eq, call_bound bus k b hreg]
    simp [hr, ht]

/-- Instance of C7 on the test registry: `foo` returns `int`, so `Call<void>("foo", ...)`
is fatal; `foo2` returns `void`, so `Call<void>("foo2", base0)` completes. -/
theorem missing_return_slot_fatal_witness :
    testBus.Call Ty.void "foo" firstCallArgs testStore = Outcome.fatal ∧
    testBus.Call Ty.void "foo2" [Arg.lvalue 10] testStore =
      Outcome.ok (Val.void, (Bound.free foo2).storeAfterCall [Arg.lvalue 10] testStore) :=
  ⟨((missing_return_slot_fatal testBus "foo" (Bound.free foo) firstCallArgs testStore rfl).1
      (by decide)).2,
   ((missing_return_slot_fatal testBus "foo2" (Bound.free foo2) [Arg.lvalue 10] testStore rfl).2
      rfl rfl).2⟩

/-! ## Round trip -/

/-- C3: for a key bound to a value-returning callable and arguments whose decayed
types are the declared parameter types, `Call<R>` with the declared `R` returns
exactly what the callable returns on the arguments taken in call-site order (the
i-th decayed argument is the i-th parameter value). -/
theorem call_returns_result (bus : MessageBus) (k : String) (b : Bound) (args : List Arg)
    (σ : Store) (hreg : mapFind bus.invokers_ k = some b.entry)
    (hret : b.RType ≠ Ty.void)
    (htys : (args.map (Arg.strip σ)).map Val.type = BareTupleType b.params) :
    bus.Call b.RType k args σ =
      Outcome.ok (b.result σ (args.map (Arg.strip σ)), b.storeAfterCall args σ) ∧
    (∀ f, b = Bound.free f →
      b.result σ (args.map (Arg.strip σ)) = (f.body (args.map (Arg.strip σ))).1) ∧
    (∀ i : Nat, (args.map (Arg.strip σ))[i]? = (args[i]?).map (Arg.strip σ)) := by
  refine ⟨?_, ?_, ?_⟩
  · rw [call_bound bus k b hreg]
    simp [hret, htys]
  · intro f hf
    subst hf
    rfl
  · intro i
    simp

/-- Test 1, first call: `Call<int>("foo", 1, "char", f, 3.14)` returns 2. -/
theorem call_returns_result_witness :
    testBus.Call Ty.int "foo" firstCallArgs testStore =
      Outcome.ok (Val.int 2, (Bound.free foo).storeAfterCall firstCallArgs testStore) :=
  (call_returns_result testBus "foo" (Bound.free foo) firstCallArgs testStore rfl (by decide) rfl).1

/-! ## Write-back -/

/-- `Call` on a key bound to `b`, when the call site agrees with the registration. -/
theorem call_agrees (bus : MessageBus) (k : String) (b : Bound) (R : Ty) (args : List Arg)
    (σ : Store) (hreg : mapFind bus.invokers_ k = some b.entry) (hag : Agrees b R args σ) :
    bus.Call R k args σ =
      Outcome.ok (if R = Ty.void then Val.void else b.result σ (args.map (Arg.strip σ)),
        b.storeAfterCall args σ) := by
  obtain ⟨hR, ht⟩ := hag
  rw [call_bound bus k b hreg]
  have h1 : ¬ (b.RType ≠ Ty.void ∧ R = Ty.void) := by
    rintro ⟨h, h'⟩
    exact h (hR ▸ h')
  rw [if_neg h1, if_neg (not_not.mpr ht), if_pos hR]

theorem storeAfter_other (b : Bound) (σ : Store) (t : List Val) (loc : Nat)
    (h : b.receiver ≠ some loc) : b.storeAfter σ t loc = σ loc := by
  cases b with
  | free f => rfl
  | member f self =>
    have hne : loc ≠ self := fun e => h (by simp [Bound.receiver, e])
    simp only [Bound.storeAfter]
    split_ifs
    · rfl
    · exact write_other _ _ _ _ hne

/-- The decayed type at a position that names `loc`. -/
theorem tuple_type_at (args : List Arg) (σ : Store) (j loc : Nat) (ty : Ty)
    (ha : args[j]? = some (Arg.lvalue loc))
    (ht : ((args.map (Arg.strip σ)).map Val.type)[j]? = some ty) : ty = (σ loc).type := by
  simp [ha, Arg.strip] at ht
  exact ht.symm

/-- C4 (amended): for a key bound to a callable that leaves the value `v` in its
`T&` parameter at position `i`, a well-formed `Call` whose argument at that position
is a non-const variable at `loc` completes and leaves `v` in that variable, provided
`T` is equality-comparable and assignable, the `operator!=` of `T` reports `v` as
different from the value the variable holds at write-back unless the two are the same,
and the variable is passed at no other position.  Whatever `operator!=` reports, the
variable ends with `v` when it reports a difference and is left as it was otherwise. -/
theorem write_back_delivers (bus : MessageBus) (k : String) (b : Bound) (R : Ty)
    (args : List Arg) (σ : Store) (i loc : Nat) (ty : Ty) (v : Val)
    (hreg : mapFind bus.invokers_ k = some b.entry)
    (hag : Agrees b R args σ)
    (harg : args[i]? = some (Arg.lvalue loc))
    (hpar : b.params[i]? = some ⟨ty, Passing.mutRef⟩)
    (hmut : (b.finals σ (args.map (Arg.strip σ)))[i]? = some v)
    (hcap : (IsEqualityComparable ty && is_assignable (Arg.lvalue loc) ty) = true)
    (hsees : opNe (b.storeAfter σ (args.map (Arg.strip σ)) loc) v = false →
      b.storeAfter σ (args.map (Arg.strip σ)) loc = v)
    (hone : ∀ j : Nat, j ≠ i → args[j]? ≠ some (Arg.lvalue loc)) :
    bus.Call R k args σ =
      Outcome.ok (if R = Ty.void then Val.void else b.result σ (args.map (Arg.strip σ)),
        b.storeAfterCall args σ) ∧
    b.storeAfterCall args σ loc = v ∧
    b.storeAfterCall args σ loc =
      (if opNe (b.storeAfter σ (args.map (Arg.strip σ)) loc) v then v
       else b.storeAfter σ (args.map (Arg.strip σ)) loc) := by
  have hup : b.storeAfterCall args σ loc =
      (if opNe (b.storeAfter σ (args.map (Arg.strip σ)) loc) v then v
       else b.storeAfter σ (args.map (Arg.strip σ)) loc) := by
    unfold Bound.storeAfterCall
    apply Update_hit loc v ty hcap i
    · rw [hag.2]
      simp [BareTupleType, hpar]
    · exact bindBack_take _ _ _ i ⟨ty, Passing.mutRef⟩ (σ loc) v hpar rfl
        (by simp [harg, Arg.strip]) hmut
    · exact harg
    · exact hone
  refine ⟨call_agrees bus k b R args σ hreg hag, ?_, hup⟩
  rw [hup]
  by_cases hs : opNe (b.storeAfter σ (args.map (Arg.strip σ)) loc) v = true
  · simp [hs]
  · have hf : opNe (b.storeAfter σ (args.map (Arg.strip σ)) loc) v = false := by
      simpa using hs
    simp [hf, hsees hf]

/-- C9 (amended): when the argument at position `i` names the storage at `loc` and
its type is not equality-comparable or it cannot be assigned to (const argument),
a well-formed `Call` completes and leaves that storage unchanged whatever the callee
does to its parameters, provided the same storage is not passed at another position
where write-back applies and is not the receiver bound to the key. -/
theorem write_back_skipped (bus : MessageBus) (k : String) (b : Bound) (R : Ty)
    (args : List Arg) (σ : Store) (i loc : Nat) (a : Arg)
    (hreg : mapFind bus.invokers_ k = some b.entry)
    (hag : Agrees b R args σ)
    (harg : args[i]? = some a)
    (_hloc : a = Arg.lvalue loc ∨ a = Arg.clvalue loc)
    (hcap : (IsEqualityComparable (σ loc).type && is_assignable a (σ loc).type) = false)
    (hother : ∀ j : Nat, j ≠ i → args[j]? = some (Arg.lvalue loc) →
      (IsEqualityComparable (σ loc).type &&
        is_assignable (Arg.lvalue loc) (σ loc).type) = false)
    (hrecv : b.receiver ≠ some loc) :
    bus.Call R k args σ =
      Outcome.ok (if R = Ty.void then Val.void else b.result σ (args.map (Arg.strip σ)),
        b.storeAfterCall args σ) ∧
    b.storeAfterCall args σ loc = σ loc := by
  refine ⟨call_agrees bus k b R args σ hreg hag, ?_⟩
  unfold Bound.storeAfterCall
  apply Update_stable loc (σ loc)
  · exact storeAfter_other b σ _ loc hrecv
  · intro j ty src ht _ hd
    left
    have hty := tuple_type_at args σ j loc ty hd ht
    subst hty
    by_cases hj : j = i
    · subst hj
      rw [harg] at hd
      have ha : a = Arg.lvalue loc := by simpa using hd
      rw [ha] at hcap
      exact hcap
    · exact hother j hj hd

/-- C10 (amended): when the argument at position `i` names the variable at `loc` and
the callee declares that parameter by value, a well-formed `Call` completes and the
variable holds the value it held before, whatever the callee does to its parameters,
provided the variable is not also passed at a position the callee declares as `T&`
and is not the receiver bound to the key. -/
theorem by_value_unchanged (bus : MessageBus) (k : String) (b : Bound) (R : Ty)
    (args : List Arg) (σ : Store) (i loc : Nat) (a : Arg) (p : Param)
    (hreg : mapFind bus.invokers_ k = some b.entry)
    (hag : Agrees b R args σ)
    (harg : args[i]? = some a)
    (_hloc : a = Arg.lvalue loc ∨ a = Arg.clvalue loc)
    (hpar : b.params[i]? = some p)
    (hval : p.mode = Passing.byValue)
    (hother : ∀ (j : Nat) (q : Param), j ≠ i → args[j]? = some (Arg.lvalue loc) →
      b.params[j]? = some q → q.mode ≠ Passing.mutRef)
    (hrecv : b.receiver ≠ some loc) :
    bus.Call R k args σ =
      Outcome.ok (if R = Ty.void then Val.void else b.result σ (args.map (Arg.strip σ)),
        b.storeAfterCall args σ) ∧
    b.storeAfterCall args σ loc = σ loc := by
  refine ⟨call_agrees bus k b R args σ hreg hag, ?_⟩
  unfold Bound.storeAfterCall
  apply Update_stable loc (σ loc)
  · exact storeAfter_other b σ _ loc hrecv
  · intro j ty src _ hs hd
    right
    have hkeep : ∀ q, b.params[j]? = some q → q.mode ≠ Passing.mutRef := by
      intro q hq
      by_cases hj : j = i
      · subst hj
        rw [hpar] at hq
        have : p = q := by simpa using hq
        subst this
        rw [hval]
        decide
      · exact hother j q hj hd hq
    rw [bindBack_keep _ _ _ j hkeep] at hs
    simp [hd, Arg.strip] at hs
    exact hs.symm

/-- Test 1, first call: `f` (location 0, position 2 of `foo`, a `float&`) goes from 1.2
to 2.4; likewise from 2.5 to 5.0. -/
theorem write_back_delivers_witness :
    mapFind testBus.invokers_ "foo" = some (Bound.free foo).entry ∧
    Agrees (Bound.free foo) Ty.int firstCallArgs testStore ∧
    testStore 0 = Val.float (Flt.num (6 / 5)) ∧
    opNe (testStore 0) (Val.float (Flt.num (12 / 5))) = true ∧
    (Bound.free foo).storeAfterCall firstCallArgs testStore 0 = Val.float (Flt.num (12 / 5)) ∧
    (Bound.free foo).storeAfterCall firstCallArgs
        (testStore.write 0 (Val.float (Flt.num (5 / 2)))) 0 = Val.float (Flt.num 5) :=
  ⟨rfl, by decide, rfl, by decide!,
    (write_back_delivers testBus "foo" (Bound.free foo) Ty.int firstCallArgs testStore 2 0
      Ty.float (Val.float (Flt.num (12 / 5))) rfl (by decide) rfl rfl (by decide!) rfl
      (fun h => absurd h (by decide!))
      (fun j hj h => by
        match j, hj, h with
        | 0, _, h => exact absurd h (by decide)
        | 1, _, h => exact absurd h (by decide)
        | 2, hj, _ => exact absurd rfl hj
        | 3, _, h => exact absurd h (by decide)
        | n + 4, _, h => simp [firstCallArgs] at h)).2.1,
    (write_back_delivers testBus "foo" (Bound.free foo) Ty.int firstCallArgs
      (testStore.write 0 (Val.float (Flt.num (5 / 2)))) 2 0
      Ty.float (Val.float (Flt.num 5)) rfl (by decide) rfl rfl (by decide!) rfl
      (fun h => absurd h (by decide!))
      (fun j hj h => by
        match j, hj, h with
        | 0, _, h => exact absurd h (by decide)
        | 1, _, h => exact absurd h (by decide)
        | 2, hj, _ => exact absurd rfl hj
        | 3, _, h => exact absurd h (by decide)
        | n + 4, _, h => simp [firstCallArgs] at h)).2.1⟩

/-- C4 fails as stated.  (a) `bumpId` increments `id_` of its `Base&` parameter, but
`Base` has no `operator==`, so after `Call<void>("bump", base)` the caller's `base` still
has `id_ = 10`.  (b) `assignSucc(int& a, int b)` sets `a = b + 1`; after
`Call<void>("succ", x, x)` with `x = 1` the by-value position writes the stale 1 over
the 2 delivered by the first position.  (c) `restock` increments `count` of its `Item&`
parameter, but `Item::operator!=` compares `id` only, so the guard sees no difference
and the caller's item keeps `count = 5`.  (d) `flipSign` turns `0.0f` into `-0.0f`,
which `!=` does not tell apart, so the caller's `z` stays `0.0f`. -/
theorem write_back_not_delivered :
    ((bumpId.body [Base 10 5]).2 = [Base 11 5] ∧
      ((MessageBus.empty.Register "bump" bumpId).2.Call Ty.void "bump" [Arg.lvalue 0]
        oneBase).value.map (fun r => r.2 0) = some (Base 10 5)) ∧
    ((assignSucc.body [Val.int 1, Val.int 1]).2 = [Val.int 2, Val.int 1] ∧
      ((MessageBus.empty.Register "succ" assignSucc).2.Call Ty.void "succ"
        [Arg.lvalue 0, Arg.lvalue 0] oneVar).value.map (fun r => r.2 0) =
        some (Val.int 1)) ∧
    ((restock.body [Item 10 5]).2 = [Item 10 6] ∧
      ((MessageBus.empty.Register "restock" restock).2.Call Ty.void "restock"
        [Arg.lvalue 0] oneItem).value.map (fun r => r.2 0) = some (Item 10 5)) ∧
    ((flipSign.body [Val.float (Flt.num 0)]).2 = [Val.float Flt.negZero] ∧
      ((MessageBus.empty.Register "flip" flipSign).2.Call Ty.void "flip"
        [Arg.lvalue 0] oneZero).value.map (fun r => r.2 0) = some (Val.float (Flt.num 0))) :=
  ⟨⟨rfl, rfl⟩, ⟨rfl, rfl⟩, ⟨rfl, rfl⟩, ⟨by decide!, by decide!⟩⟩

/-- Test 2: `Call<void>("foo2", base0)`; `Base` has no `operator==`, the position is
skipped and `base0` (location 10) is unchanged. -/
theorem write_back_skipped_witness :
    mapFind testBus.invokers_ "foo2" = some (Bound.free foo2).entry ∧
    Agrees (Bound.free foo2) Ty.void [Arg.lvalue 10] testStore ∧
    (IsEqualityComparable (testStore 10).type &&
      is_assignable (Arg.lvalue 10) (testStore 10).type) = false ∧
    (Bound.free foo2).storeAfterCall [Arg.lvalue 10] testStore 10 = Base 10 5 :=
  ⟨rfl, by decide, rfl,
    (write_back_skipped testBus "foo2" (Bound.free foo2) Ty.void [Arg.lvalue 10] testStore
      0 10 (Arg.lvalue 10) rfl (by decide) rfl (Or.inl rfl) rfl
      (fun j hj h => by
        cases j with
        | zero => exact absurd rfl hj
        | succ n => simp at h)
      (by decide)).2⟩

/-- C9 fails as stated.  (a) `succInto(int a, int& b)` sets `b = a + 1`; in
`Call<void>("succ", cx, x)` with `const int& cx = x` and `x = 1`, position 0 is const,
hence not assignable, yet its storage holds 2 afterwards.  (b) `absorb` bound to the
receiver at location 0 and called with that same object as argument: the position is
not equality-comparable, yet the object changes from `id_ = 10` to `id_ = 20`. -/
theorem write_back_skip_storage_changed :
    ((IsEqualityComparable (oneVar 0).type && is_assignable (Arg.clvalue 0) (oneVar 0).type)
        = false ∧
      ((MessageBus.empty.Register "succ" succInto).2.Call Ty.void "succ"
        [Arg.clvalue 0, Arg.lvalue 0] oneVar).value.map (fun r => r.2 0) =
        some (Val.int 2)) ∧
    ((IsEqualityComparable (oneBase 0).type && is_assignable (Arg.lvalue 0) (oneBase 0).type)
        = false ∧
      ((MessageBus.empty.RegisterMember "absorb" absorb 0).2.Call Ty.void "absorb"
        [Arg.lvalue 0] oneBase).value.map (fun r => r.2 0) = some (Base 20 5)) :=
  ⟨⟨rfl, rfl⟩, ⟨rfl, rfl⟩⟩

/-- Test 1, second call: `Call<int>("foo", i, str, f, d)`; `i` (location 1, position 0,
declared `int`) still holds 2 afterwards, `d` still holds 2.718, `f` is doubled and the
call returns 3. -/
theorem by_value_unchanged_witness :
    mapFind testBus.invokers_ "foo" = some (Bound.free foo).entry ∧
    Agrees (Bound.free foo) Ty.int secondCallArgs testStore ∧
    testBus.Call Ty.int "foo" secondCallArgs testStore =
      Outcome.ok (Val.int 3, (Bound.free foo).storeAfterCall secondCallArgs testStore) ∧
    (Bound.free foo).storeAfterCall secondCallArgs testStore 1 = Val.int 2 ∧
    (Bound.free foo).storeAfterCall secondCallArgs testStore 2 =
      Val.double (Flt.num (1359 / 500)) ∧
    (Bound.free foo).storeAfterCall secondCallArgs testStore 0 =
      Val.float (Flt.num (12 / 5)) :=
  have h := by_value_unchanged testBus "foo" (Bound.free foo) Ty.int secondCallArgs testStore
    0 1 (Arg.lvalue 1) ⟨Ty.int, Passing.byValue⟩ rfl (by decide) rfl (Or.inl rfl) rfl rfl
    (fun j q hj h _ => by
      match j, hj, h with
      | 0, hj, _ => exact absurd rfl hj
      | 1, _, h => exact absurd h (by decide)
      | 2, _, h => exact absurd h (by decide)
      | 3, _, h => exact absurd h (by decide)
      | n + 4, _, h => simp [secondCallArgs] at h)
    (by decide)
  ⟨rfl, by decide, h.1, h.2, by decide!, by decide!⟩

/-- C10 fails as stated.  (a) `succInto(int a, int& b)` sets `b = a + 1`; after
`Call<void>("succ", x, x)` with `x = 1` the variable passed at the by-value position 0
holds 2.  (b) `absorb(Base other)` bound to the receiver at location 0 and called with
that same object: the variable passed by value changes from `id_ = 10` to `id_ = 20`. -/
theorem by_value_variable_changed :
    (succInto.params[0]? = some ⟨Ty.int, Passing.byValue⟩ ∧ oneVar 0 = Val.int 1 ∧
      ((MessageBus.empty.Register "succ" succInto).2.Call Ty.void "succ"
        [Arg.lvalue 0, Arg.lvalue 0] oneVar).value.map (fun r => r.2 0) =
        some (Val.int 2)) ∧
    (absorb.params[0]? = some ⟨Ty.cls "Base" none true, Passing.byValue⟩ ∧
      oneBase 0 = Base 10 5 ∧
      ((MessageBus.empty.RegisterMember "absorb" absorb 0).2.Call Ty.void "absorb"
        [Arg.lvalue 0] oneBase).value.map (fun r => r.2 0) = some (Base 20 5)) :=
  ⟨⟨rfl, rfl, rfl⟩, ⟨rfl, rfl, rfl⟩⟩

/-! ## Member dispatch -/

theorem UpdateImpl_pointwise (ty : Ty) (src : Val) (dst : Arg) (σ σ' : Store) (loc : Nat)
    (h : σ loc = σ' loc) : UpdateImpl ty src dst σ loc = UpdateImpl ty src dst σ' loc := by
  by_cases hd : dst = Arg.lvalue loc
  · subst hd
    by_cases hc : (IsEqualityComparable ty && is_assignable (Arg.lvalue loc) ty) = true
    · rw [UpdateImpl_hit _ _ _ _ hc, UpdateImpl_hit _ _ _ _ hc, h]
    · rw [UpdateImpl_skip _ _ _ _ (by simpa using hc), UpdateImpl_skip _ _ _ _ (by simpa using hc)]
      exact h
  · rw [UpdateImpl_other _ _ _ _ _ hd, UpdateImpl_other _ _ _ _ _ hd]
    exact h

/-- What the write-back pass leaves at a location depends on the store only through
that location. -/
theorem Update_pointwise (loc : Nat) :
    ∀ (tys : List Ty) (srcs : List Val) (dsts : List Arg) (σ σ' : Store), σ loc = σ' loc →
      Update tys srcs dsts σ loc = Update tys srcs dsts σ' loc := by
  intro tys
  induction tys with
  | nil => intro srcs dsts σ σ' h; simpa [Update] using h
  | cons ty tys ih =>
    intro srcs dsts σ σ' h
    cases srcs with
    | nil => simpa [Update] using h
    | cons src srcs =>
      cases dsts with
      | nil => simpa [Update] using h
      | cons dst dsts =>
        simp only [Update]
        exact ih srcs dsts _ _ (UpdateImpl_pointwise ty src dst σ σ' loc h)

theorem strip_write_other (σ : Store) (r : Nat) (v : Val) (args : List Arg)
    (h : ∀ a ∈ args, a ≠ Arg.lvalue r ∧ a ≠ Arg.clvalue r) :
    args.map (Arg.strip (σ.write r v)) = args.map (Arg.strip σ) := by
  apply List.map_congr_left
  intro a ha
  obtain ⟨h1, h2⟩ := h a ha
  cases a with
  | lvalue l =>
    have : l ≠ r := fun e => h1 (by rw [e])
    simp [Arg.strip, Store.write, this]
  | clvalue l =>
    have : l ≠ r := fun e => h2 (by rw [e])
    simp [Arg.strip, Store.write, this]
  | rvalue w => rfl
  | literal t => rfl

/-- A call on a key bound to member `m` of receiver `r` does not see or touch another
object `o` that is not among the arguments. -/
theorem member_call_independent (bus : MessageBus) (k : String) (m : MemberCallable)
    (r o : Nat) (hro : r ≠ o) (hreg : mapFind bus.invokers_ k = some (Invoker.ApplyMember m r))
    (R : Ty) (args : List Arg) (σ : Store) (v : Val)
    (hargs : ∀ a ∈ args, a ≠ Arg.lvalue o ∧ a ≠ Arg.clvalue o) :
    (bus.Call R k args (σ.write o v)).value.map Prod.fst =
      (bus.Call R k args σ).value.map Prod.fst ∧
    (∀ loc, loc ≠ o →
      (bus.Call R k args (σ.write o v)).value.map (fun x => x.2 loc) =
        (bus.Call R k args σ).value.map (fun x => x.2 loc)) ∧
    (bus.Call R k args σ).value.map (fun x => x.2 o) =
      (bus.Call R k args σ).value.map (fun _ => σ o) := by
  have hb : mapFind bus.invokers_ k = some (Bound.member m r).entry := hreg
  have hstrip := strip_write_other σ o v args hargs
  have hr : (σ.write o v) r = σ r := write_other _ _ _ _ hro
  rw [call_bound bus k _ hb, call_bound bus k _ hb, hstrip]
  have hres : (Bound.member m r).result (σ.write o v) (args.map (Arg.strip σ)) =
      (Bound.member m r).result σ (args.map (Arg.strip σ)) := by
    simp [Bound.result, hr]
  have hfin : (Bound.member m r).finals (σ.write o v) (args.map (Arg.strip σ)) =
      (Bound.member m r).finals σ (args.map (Arg.strip σ)) := by
    simp [Bound.finals, hr]
  have hst : ∀ loc, loc ≠ o →
      (Bound.member m r).storeAfterCall args (σ.write o v) loc =
        (Bound.member m r).storeAfterCall args σ loc := by
    intro loc hl
    unfold Bound.storeAfterCall
    simp only [hstrip, hfin]
    apply Update_pointwise
    simp only [Bound.storeAfter, hr]
    split_ifs
    · exact write_other _ _ _ _ hl
    · by_cases hlr : loc = r
      · subst hlr; simp [Store.write]
      · simp [Store.write, hlr, hl]
  have hfix : (Bound.member m r).storeAfterCall args σ o = σ o := by
    unfold Bound.storeAfterCall
    apply Update_stable
    · exact storeAfter_other _ σ _ o (by simp [Bound.receiver, hro])
    · intro j ty src _ _ hd
      exact absurd (List.mem_iff_getElem?.mpr ⟨j, hd⟩) (fun hmem => (hargs _ hmem).1 rfl)
  refine ⟨?_, ?_, ?_⟩
  · rw [hres]; split_ifs <;> rfl
  · intro loc hl
    split_ifs <;> simp [Outcome.value, hst loc hl]
  · split_ifs <;> simp [Outcome.value, hfix]

/-- C5: the same member function `m` registered under distinct keys `k0`, `k1` with
distinct receivers `r0`, `r1`: `Call(k0, ...)` runs `m` on the object at `r0` and
`Call(k1, ...)` runs it on the object at `r1` (returned value, tuple written back and
receiver update are those of `m` on that receiver); the outcome of `Call(k0, ...)` neither
depends on nor changes the object at `r1` when it is not among the arguments, and
conversely. -/
theorem member_dispatch_isolated (bus0 : MessageBus) (k0 k1 : String) (m : MemberCallable)
    (r0 r1 : Nat) (hk : k0 ≠ k1) (hr : r0 ≠ r1) (h0 : bus0.HasKey k0 = false)
    (h1 : bus0.HasKey k1 = false) :
    (mapFind ((bus0.RegisterMember k0 m r0).2.RegisterMember k1 m r1).2.invokers_ k0 =
        some (Invoker.ApplyMember m r0) ∧
      mapFind ((bus0.RegisterMember k0 m r0).2.RegisterMember k1 m r1).2.invokers_ k1 =
        some (Invoker.ApplyMember m r1)) ∧
    (∀ R args σ, Agrees (Bound.member m r0) R args σ →
      ((bus0.RegisterMember k0 m r0).2.RegisterMember k1 m r1).2.Call R k0 args σ =
        Outcome.ok (if R = Ty.void then Val.void
            else (m.body (σ r0) (args.map (Arg.strip σ))).1,
          (Bound.member m r0).storeAfterCall args σ) ∧
      ((bus0.RegisterMember k0 m r0).2.RegisterMember k1 m r1).2.Call R k1 args σ =
        Outcome.ok (if R = Ty.void then Val.void
            else (m.body (σ r1) (args.map (Arg.strip σ))).1,
          (Bound.member m r1).storeAfterCall args σ)) ∧
    (∀ R args σ v, (∀ a ∈ args, a ≠ Arg.lvalue r1 ∧ a ≠ Arg.clvalue r1) →
      (((bus0.RegisterMember k0 m r0).2.RegisterMember k1 m r1).2.Call R k0 args
          (σ.write r1 v)).value.map Prod.fst =
        (((bus0.RegisterMember k0 m r0).2.RegisterMember k1 m r1).2.Call R k0 args
          σ).value.map Prod.fst ∧
      (((bus0.RegisterMember k0 m r0).2.RegisterMember k1 m r1).2.Call R k0 args
          σ).value.map (fun x => x.2 r1) =
        (((bus0.RegisterMember k0 m r0).2.RegisterMember k1 m r1).2.Call R k0 args
          σ).value.map (fun _ => σ r1)) ∧
    (∀ R args σ v, (∀ a ∈ args, a ≠ Arg.lvalue r0 ∧ a ≠ Arg.clvalue r0) →
      (((bus0.RegisterMember k0 m r0).2.RegisterMember k1 m r1).2.Call R k1 args
          (σ.write r0 v)).value.map Prod.fst =
        (((bus0.RegisterMember k0 m r0).2.RegisterMember k1 m r1).2.Call R k1 args
          σ).value.map Prod.fst ∧
      (((bus0.RegisterMember k0 m r0).2.RegisterMember k1 m r1).2.Call R k1 args
          σ).value.map (fun x => x.2 r0) =
        (((bus0.RegisterMember k0 m r0).2.RegisterMember k1 m r1).2.Call R k1 args
          σ).value.map (fun _ => σ r0)) := by
  have e0 : bus0.RegisterMember k0 m r0 =
      (true, ⟨mapAssign bus0.invokers_ k0 (Invoker.ApplyMember m r0)⟩) := by
    simp [RegisterMember, h0]
  have hk1 : (MessageBus.mk (mapAssign bus0.invokers_ k0 (Invoker.ApplyMember m r0))).HasKey k1
      = false := by
    unfold HasKey at h1 ⊢
    simpa [mapFind_mapAssign_ne _ k0 k1 _ (Ne.symm hk)] using h1
  have e1 : (bus0.RegisterMember k0 m r0).2.RegisterMember k1 m r1 =
      (true, ⟨mapAssign (mapAssign bus0.invokers_ k0 (Invoker.ApplyMember m r0)) k1
        (Invoker.ApplyMember m r1)⟩) := by
    rw [e0]
    simp [RegisterMember, hk1]
  rw [e1]
  have f0 : mapFind (mapAssign (mapAssign bus0.invokers_ k0 (Invoker.ApplyMember m r0)) k1
      (Invoker.ApplyMember m r1)) k0 = some (Invoker.ApplyMember m r0) := by
    rw [mapFind_mapAssign_ne _ k1 k0 _ hk, mapFind_mapAssign_self]
  have f1 : mapFind (mapAssign (mapAssign bus0.invokers_ k0 (Invoker.ApplyMember m r0)) k1
      (Invoker.ApplyMember m r1)) k1 = some (Invoker.ApplyMember m r1) :=
    mapFind_mapAssign_self _ _ _
  refine ⟨⟨f0, f1⟩, ?_, ?_, ?_⟩
  · intro R args σ hag
    have hag1 : Agrees (Bound.member m r1) R args σ := hag
    exact ⟨call_agrees _ k0 (Bound.member m r0) R args σ f0 hag,
      call_agrees _ k1 (Bound.member m r1) R args σ f1 hag1⟩
  · intro R args σ v hargs
    have h := member_call_independent _ k0 m r0 r1 hr f0 R args σ v hargs
    exact ⟨h.1, h.2.2⟩
  · intro R args σ v hargs
    have h := member_call_independent _ k1 m r1 r0 (Ne.symm hr) f1 R args σ v hargs
    exact ⟨h.1, h.2.2⟩

/-- Test 2: `check_id/0` (receiver `base0`, `id_ = 10`) is true for 10 and false for 20,
`check_id/1` (receiver `base1`, `id_ = 20`) the reverse; `base_foo/0` adds 5 to `i` and
`base_foo/1` adds 100. -/
theorem member_dispatch_isolated_witness :
    ("check_id/0" ≠ "check_id/1" ∧ (10 : Nat) ≠ 11 ∧
      testBusBefore.HasKey "check_id/0" = false ∧
      testBusBefore.HasKey "check_id/1" = false) ∧
    ((testBus.Call Ty.bool "check_id/0" [Arg.rvalue (Val.int 10)] testStore).value.map
        Prod.fst = some (Val.bool true) ∧
      (testBus.Call Ty.bool "check_id/1" [Arg.rvalue (Val.int 10)] testStore).value.map
        Prod.fst = some (Val.bool false)) ∧
    ((testBus.Call Ty.bool "check_id/0" [Arg.rvalue (Val.int 20)] testStore).value.map
        Prod.fst = some (Val.bool false) ∧
      (testBus.Call Ty.bool "check_id/1" [Arg.rvalue (Val.int 20)] testStore).value.map
        Prod.fst = some (Val.bool true)) ∧
    (testBus.Call Ty.void "base_foo/0" [Arg.lvalue 12] testStore).value.map
        (fun x => x.2 12) = some (Val.int 5) ∧
    (testBus.Call Ty.void "base_foo/1" [Arg.lvalue 12] testStore).value.map
        (fun x => x.2 12) = some (Val.int 100) :=
  have h := member_dispatch_isolated testBusBefore "check_id/0" "check_id/1" check_id 10 11
    (by decide) (by decide) rfl rfl
  have h10 := h.2.1 Ty.bool [Arg.rvalue (Val.int 10)] testStore ⟨rfl, rfl⟩
  have h20 := h.2.1 Ty.bool [Arg.rvalue (Val.int 20)] testStore ⟨rfl, rfl⟩
  ⟨⟨by decide, by decide, rfl, rfl⟩,
    ⟨congrArg (fun o => o.value.map Prod.fst) h10.1,
      congrArg (fun o => o.value.map Prod.fst) h10.2⟩,
    ⟨congrArg (fun o => o.value.map Prod.fst) h20.1,
      congrArg (fun o => o.value.map Prod.fst) h20.2⟩,
    rfl, rfl⟩

/-! ## Permanence of bindings -/

theorem register_eq (bus : MessageBus) (key : String) (b : Bound) :
    b.register bus key =
      if bus.HasKey key then (false, bus)
      else (true, ⟨mapAssign bus.invokers_ key b.entry⟩) := by
  cases b <;> rfl

theorem mapAssign_keys_fresh {β : Type} (m : List (String × β)) (key : String) (v : β)
    (h : mapFind m key = none) :
    (mapAssign m key v).map Prod.fst = m.map Prod.fst ++ [key] := by
  induction m with
  | nil => rfl
  | cons e rest ih =>
    obtain ⟨k, w⟩ := e
    by_cases hk : k = key
    · simp [mapFind, hk] at h
    · simp only [mapFind, if_neg hk] at h
      simp [mapAssign, hk, ih h]

theorem mapFind_none_not_mem {β : Type} (m : List (String × β)) (key : String)
    (h : mapFind m key = none) : key ∉ m.map Prod.fst := by
  induction m with
  | nil => simp
  | cons e rest ih =>
    obtain ⟨k, w⟩ := e
    by_cases hk : k = key
    · simp [mapFind, hk] at h
    · simp only [mapFind, if_neg hk] at h
      simp only [List.map_cons, List.mem_cons, not_or]
      exact ⟨fun e => hk e.symm, ih h⟩

/-- One operation keeps the keys distinct and never changes the entry of a bound key;
a key that was not bound gets bound only by a `Register` on it. -/
theorem step_spec (s s1 : State) (op : Op) (k : String) (h : step s op = Outcome.ok s1) :
    ((s.bus.invokers_.map Prod.fst).Nodup → (s1.bus.invokers_.map Prod.fst).Nodup) ∧
    mapFind s1.bus.invokers_ k =
      match mapFind s.bus.invokers_ k with
      | some e => some e
      | none => (firstBinding [op] k).map Bound.entry := by
  cases op with
  | register key b =>
    simp only [step, register_eq] at h
    by_cases hb : s.bus.HasKey key = true
    · simp only [hb, if_true] at h
      injection h with h
      subst h
      refine ⟨fun hn => hn, ?_⟩
      cases hf : mapFind s.bus.invokers_ k with
      | some e => rfl
      | none =>
        have hne : key ≠ k := by
          intro e
          subst e
          simp [HasKey, hf] at hb
        simp [firstBinding, hne]
    · simp only [hb] at h
      injection h with h
      subst h
      have hnone : mapFind s.bus.invokers_ key = none := by
        simpa [HasKey] using hb
      refine ⟨fun hn => ?_, ?_⟩
      · show ((mapAssign s.bus.invokers_ key b.entry).map Prod.fst).Nodup
        rw [mapAssign_keys_fresh _ _ _ hnone]
        refine List.Nodup.append hn (List.nodup_singleton key) ?_
        intro x hx hx'
        have : x = key := by simpa using hx'
        subst this
        exact mapFind_none_not_mem _ _ hnone hx
      · show mapFind (mapAssign s.bus.invokers_ key b.entry) k = _
        by_cases hk : key = k
        · subst hk
          rw [mapFind_mapAssign_self, hnone]
          simp [firstBinding]
        · rw [mapFind_mapAssign_ne _ _ _ _ (Ne.symm hk)]
          cases hf : mapFind s.bus.invokers_ k with
          | some e => rfl
          | none => simp [firstBinding, hk]
  | hasKey key =>
    simp only [step] at h
    injection h with h
    subst h
    refine ⟨fun hn => hn, ?_⟩
    cases hf : mapFind s.bus.invokers_ k <;> simp [firstBinding]
  | call R key args =>
    simp only [step] at h
    cases hc : s.bus.Call R key args s.store with
    | ok r =>
      simp only [hc, Outcome.bind] at h
      injection h with h
      subst h
      refine ⟨fun hn => hn, ?_⟩
      cases hf : mapFind s.bus.invokers_ k <;> simp [firstBinding, hf]
    | fatal => simp [hc, Outcome.bind] at h
    | undefined => simp [hc, Outcome.bind] at h

theorem exec_spec (ops : List Op) :
    ∀ (s s1 : State) (k : String), exec s ops = Outcome.ok s1 →
      ((s.bus.invokers_.map Prod.fst).Nodup → (s1.bus.invokers_.map Prod.fst).Nodup) ∧
      mapFind s1.bus.invokers_ k =
        match mapFind s.bus.invokers_ k with
        | some e => some e
        | none => (firstBinding ops k).map Bound.entry := by
  induction ops with
  | nil =>
    intro s s1 k h
    simp only [exec] at h
    injection h with h
    subst h
    refine ⟨fun hn => hn, ?_⟩
    cases hf : mapFind s.bus.invokers_ k <;> simp [firstBinding]
  | cons op ops ih =>
    intro s s1 k h
    simp only [exec] at h
    cases hs : step s op with
    | ok s2 =>
      simp only [hs, Outcome.bind] at h
      obtain ⟨hn1, hf1⟩ := step_spec s s2 op k hs
      obtain ⟨hn2, hf2⟩ := ih s2 s1 k h
      refine ⟨fun hn => hn2 (hn1 hn), ?_⟩
      rw [hf2, hf1]
      cases hf : mapFind s.bus.invokers_ k with
      | some e => rfl
      | none =>
        cases op with
        | register key b =>
          by_cases hk : key = k
          · simp [firstBinding, hk]
          · simp [firstBinding, hk]
        | hasKey key => simp [firstBinding]
        | call R key args => simp [firstBinding]
    | fatal => simp [hs, Outcome.bind] at h
    | undefined => simp [hs, Outcome.bind] at h

theorem call_congr (bus1 bus2 : MessageBus) (k : String)
    (h : mapFind bus1.invokers_ k = mapFind bus2.invokers_ k) (R : Ty) (args : List Arg)
    (σ : Store) : bus1.Call R k args σ = bus2.Call R k args σ := by
  unfold MessageBus.Call
  rw [h]

/-- C8: along any sequence of `Register`, `HasKey` and `Call` operations run from the
empty registry, the keys of the registry are pairwise distinct, the entry of a key is
the one built from the first `Register` on that key, a key that is bound stays bound
to the same entry after any further operations, and `Call` on it behaves as on a
registry holding only that first registration. -/
theorem bindings_permanent (σ0 : Store) (ops more : List Op) (k : String) (s s1 : State)
    (h1 : exec ⟨MessageBus.empty, σ0⟩ ops = Outcome.ok s)
    (h2 : exec s more = Outcome.ok s1) :
    ((s.bus.invokers_.map Prod.fst).Nodup ∧ (s1.bus.invokers_.map Prod.fst).Nodup) ∧
    mapFind s.bus.invokers_ k = (firstBinding ops k).map Bound.entry ∧
    (s.bus.HasKey k = true →
      s1.bus.HasKey k = true ∧ mapFind s1.bus.invokers_ k = mapFind s.bus.invokers_ k) ∧
    (∀ b, firstBinding ops k = some b → ∀ R args σ,
      s1.bus.Call R k args σ = (b.register MessageBus.empty k).2.Call R k args σ) := by
  obtain ⟨hn1, hf1⟩ := exec_spec ops _ s k h1
  obtain ⟨hn2, hf2⟩ := exec_spec more s s1 k h2
  have hnod : (s.bus.invokers_.map Prod.fst).Nodup := hn1 (by simp [MessageBus.empty])
  have hfs : mapFind s.bus.invokers_ k = (firstBinding ops k).map Bound.entry := by
    rw [hf1]; rfl
  have hkeep : s.bus.HasKey k = true →
      mapFind s1.bus.invokers_ k = mapFind s.bus.invokers_ k := by
    intro hb
    rw [hf2]
    cases hf : mapFind s.bus.invokers_ k with
    | some e => rfl
    | none => simp [HasKey, hf] at hb
  refine ⟨⟨hnod, hn2 hnod⟩, hfs, ?_, ?_⟩
  · intro hb
    refine ⟨?_, hkeep hb⟩
    unfold HasKey at hb ⊢
    rw [hkeep (by simpa [HasKey] using hb)]
    exact hb
  · intro b hb R args σ
    have hsb : mapFind s.bus.invokers_ k = some b.entry := by rw [hfs, hb]; rfl
    have hs1 : mapFind s1.bus.invokers_ k = some b.entry := by
      rw [hkeep (by simp [HasKey, hsb]), hsb]
    apply call_congr
    rw [hs1, register_eq]
    simp [HasKey, MessageBus.empty, mapFind, mapAssign]

/-- A run from the empty registry: `check_id` is registered under one key for `base0`,
a second registration under the same key for `base1` is rejected, and after a call and
a registration under another key the key still dispatches to `base0` (`id_ = 10`). -/
theorem bindings_permanent_witness :
    exec ⟨MessageBus.empty, testStore⟩
        [Op.register "check_id/0" (Bound.member check_id 10),
          Op.register "check_id/0" (Bound.member check_id 11), Op.hasKey "foo"] =
      Outcome.ok ⟨⟨[("check_id/0", Invoker.ApplyMember check_id 10)]⟩, testStore⟩ ∧
    exec ⟨⟨[("check_id/0", Invoker.ApplyMember check_id 10)]⟩, testStore⟩
        [Op.call Ty.bool "check_id/0" [Arg.rvalue (Val.int 10)],
          Op.register "foo2" (Bound.free foo2)] =
      Outcome.ok ⟨⟨[("check_id/0", Invoker.ApplyMember check_id 10),
          ("foo2", Invoker.Apply foo2)]⟩,
        (Bound.member check_id 10).storeAfterCall [Arg.rvalue (Val.int 10)] testStore⟩ ∧
    (MessageBus.mk [("check_id/0", Invoker.ApplyMember check_id 10),
        ("foo2", Invoker.Apply foo2)]).HasKey "check_id/0" = true ∧
    ((MessageBus.mk [("check_id/0", Invoker.ApplyMember check_id 10),
        ("foo2", Invoker.Apply foo2)]).Call Ty.bool "check_id/0" [Arg.rvalue (Val.int 10)]
        testStore).value.map Prod.fst = some (Val.bool true) :=
  have h := bindings_permanent testStore
    [Op.register "check_id/0" (Bound.member check_id 10),
      Op.register "check_id/0" (Bound.member check_id 11), Op.hasKey "foo"]
    [Op.call Ty.bool "check_id/0" [Arg.rvalue (Val.int 10)],
      Op.register "foo2" (Bound.free foo2)]
    "check_id/0"
    ⟨⟨[("check_id/0", Invoker.ApplyMember check_id 10)]⟩, testStore⟩
    ⟨⟨[("check_id/0", Invoker.ApplyMember check_id 10), ("foo2", Invoker.Apply foo2)]⟩,
      (Bound.member check_id 10).storeAfterCall [Arg.rvalue (Val.int 10)] testStore⟩
    rfl rfl
  ⟨rfl, rfl, (h.2.2.1 rfl).1,
    (congrArg (fun o => o.value.map Prod.fst)
      (h.2.2.2 (Bound.member check_id 10) rfl Ty.bool [Arg.rvalue (Val.int 10)]
        testStore)).trans rfl⟩

end message_bus
